import Mathlib

/-!
Verification of the presence-registry core of `p2p-share` (`src/server/main.py`,
`src/server/models.py`).

The store is modelled as a list of user rows (the `users` table).  Timestamps
are integers (`datetime` values only ever enter comparisons and subtraction of
a constant, so any linearly ordered additive model is faithful; we use `Int`).
Password hashing and verification are external (`passlib` bcrypt); the
endpoints that use them take the hash/verify function as an explicit argument.

Each FastAPI endpoint is translated as a function from the database state to a
pair: the HTTP outcome (`Except HTTPException r`, where a raised
`HTTPException(status_code, detail)` becomes `Except.error`) together with the
database state after the request.  On the failure paths of `main.py` the
`raise` happens before any mutation, so those branches return the input state.
`prune_users` is the body of one cycle of the background sweeper loop.
-/

/-- One raised FastAPI `HTTPException`: a status code and a detail string. -/
structure HTTPException where
  statusCode : Nat
  detail : String
deriving Repr, DecidableEq

/-- One row of the `users` table (`src/server/models.py`, class `User`). -/
structure User where
  username : String
  hashed_password : String
  is_online : Bool
  last_ping : Int
  is_busy : Bool
deriving Repr, DecidableEq

/-- The `users` table: the list of rows, in insertion order. -/
abbrev Store := List User

/-- `db.query(models.User).filter(models.User.username == k).first()`. -/
def findUser (k : String) (db : Store) : Option User :=
  db.find? (fun u => u.username == k)

/-- Mutate the first row whose `username` equals `k` (the row returned by
`.first()`), leaving every other row untouched. -/
def updateUser (k : String) (f : User → User) : Store → Store
  | [] => []
  | u :: rest => if u.username == k then f u :: rest else u :: updateUser k f rest

/-- A freshly inserted row: `models.User(username=..., hashed_password=...)`
with the column defaults `is_online=False`, `last_ping=datetime.utcnow()`,
`is_busy=False` (`src/server/models.py`). -/
def newUser (username hashed : String) (now : Int) : User :=
  { username := username, hashed_password := hashed, is_online := false,
    last_ping := now, is_busy := false }

/-- `POST /register` (`src/server/main.py`, `register`): reject an existing
username with a 400, otherwise insert a new row with the hashed password. -/
def register (hashFn : String → String) (username password : String) (now : Int)
    (db : Store) : Except HTTPException Unit × Store :=
  match findUser username db with
  | some _ => (Except.error ⟨400, "Username already registered"⟩, db)
  | none => (Except.ok (), db ++ [newUser username (hashFn password) now])

/-- `POST /login` (`src/server/main.py`, `login`): unknown username or failed
password verification both raise the same 400 `"Invalid credentials"`; on
success the row is marked online and its `last_ping` refreshed. -/
def login (verifyFn : String → String → Bool) (username password : String)
    (now : Int) (db : Store) : Except HTTPException Unit × Store :=
  match findUser username db with
  | none => (Except.error ⟨400, "Invalid credentials"⟩, db)
  | some u =>
    if verifyFn password u.hashed_password then
      (Except.ok (),
        updateUser username (fun v => { v with is_online := true, last_ping := now }) db)
    else
      (Except.error ⟨400, "Invalid credentials"⟩, db)

/-- `POST /ping` (`src/server/main.py`, `ping`): 404 when the username is
unknown, otherwise refresh `last_ping` and set `is_online`. -/
def ping (username : String) (now : Int) (db : Store) :
    Except HTTPException Unit × Store :=
  match findUser username db with
  | none => (Except.error ⟨404, "User not found"⟩, db)
  | some _ =>
    (Except.ok (),
      updateUser username (fun v => { v with last_ping := now, is_online := true }) db)

/-- `GET /users` (`src/server/main.py`, `get_users`): with
`cutoff = now - ttl`, return the rows with `is_online == True`,
`last_ping > cutoff` and `is_busy == False`.  The source hardcodes
`ttl = 60` seconds; we keep it as a parameter. -/
def get_users (now ttl : Int) (db : Store) : List User :=
  db.filter (fun u => u.is_online && decide (u.last_ping > now - ttl) && !u.is_busy)

/-- `POST /status` (`src/server/main.py`, `update_status`): 404 when the
username is unknown, otherwise set `is_busy` to the given value. -/
def update_status (username : String) (is_busy : Bool) (db : Store) :
    Except HTTPException Unit × Store :=
  match findUser username db with
  | none => (Except.error ⟨404, "User not found"⟩, db)
  | some _ =>
    (Except.ok (), updateUser username (fun v => { v with is_busy := is_busy }) db)

/-- Effect of one sweeper pass on a single row (`src/server/main.py`,
`prune_users`, loop over `stale_users`): a row with `is_online == True` and
`last_ping < cutoff` gets `is_online := False` and `is_busy := False`
(the comment in the source: reset busy status if they dropped off); every
other row is untouched. -/
def pruneOne (now ttl : Int) (u : User) : User :=
  if u.is_online && decide (u.last_ping < now - ttl) then
    { u with is_online := false, is_busy := false }
  else u

/-- One cycle of the background sweeper (`src/server/main.py`, `prune_users`,
loop body): with `cutoff = now - ttl`, apply `pruneOne` to every row.  The
source hardcodes `ttl = 60` seconds; we keep it as a parameter. -/
def prune_users (now ttl : Int) (db : Store) : Store :=
  db.map (pruneOne now ttl)

/-- States of the store reachable from the empty table by any sequence of
endpoint calls (succeeding or failing) and sweeper cycles. -/
inductive Reachable : Store → Prop where
  | empty : Reachable []
  | reg (hf : String → String) (u p : String) (t : Int) {s : Store} :
      Reachable s → Reachable (register hf u p t s).2
  | log (vf : String → String → Bool) (u p : String) (t : Int) {s : Store} :
      Reachable s → Reachable (login vf u p t s).2
  | png (u : String) (t : Int) {s : Store} :
      Reachable s → Reachable (ping u t s).2
  | sts (u : String) (b : Bool) {s : Store} :
      Reachable s → Reachable (update_status u b s).2
  | swp (now ttl : Int) {s : Store} :
      Reachable s → Reachable (prune_users now ttl s)

/-- Reachability as above, but a `POST /status` call setting `is_busy = true`
is only taken on a key whose row is currently online. -/
inductive ReachableGuarded : Store → Prop where
  | empty : ReachableGuarded []
  | reg (hf : String → String) (u p : String) (t : Int) {s : Store} :
      ReachableGuarded s → ReachableGuarded (register hf u p t s).2
  | log (vf : String → String → Bool) (u p : String) (t : Int) {s : Store} :
      ReachableGuarded s → ReachableGuarded (login vf u p t s).2
  | png (u : String) (t : Int) {s : Store} :
      ReachableGuarded s → ReachableGuarded (ping u t s).2
  | sts (u : String) (b : Bool) {s : Store} :
      ReachableGuarded s →
      (b = true → ∀ r, findUser u s = some r → r.is_online = true) →
      ReachableGuarded (update_status u b s).2
  | swp (now ttl : Int) {s : Store} :
      ReachableGuarded s → ReachableGuarded (prune_users now ttl s)

/-- Spec invariant P1: an offline row is never busy. -/
def OfflineNotBusy (s : Store) : Prop :=
  ∀ u ∈ s, u.is_online = false → u.is_busy = false

-- Helper lemmas about `findUser` and `updateUser`.

theorem findUser_nil (k : String) : findUser k [] = none := rfl

theorem findUser_cons (k : String) (u : User) (l : Store) :
    findUser k (u :: l) = if u.username == k then some u else findUser k l := by
  cases h : u.username == k
  · rw [if_neg (by simp [h])]
    exact List.find?_cons_of_neg _ (by simp [h])
  · rw [if_pos (by simp [h])]
    exact List.find?_cons_of_pos _ h

theorem findUser_append (k : String) (l₁ l₂ : Store) :
    findUser k (l₁ ++ l₂) =
      match findUser k l₁ with
      | some u => some u
      | none => findUser k l₂ := by
  induction l₁ with
  | nil => simp [findUser_nil]
  | cons u rest ih =>
    rw [List.cons_append, findUser_cons, findUser_cons]
    by_cases h : u.username == k <;> simp [h, ih]

theorem mem_of_findUser {k : String} {l : Store} {u : User}
    (h : findUser k l = some u) : u ∈ l :=
  List.mem_of_find?_eq_some h

theorem username_of_findUser {k : String} {l : Store} {u : User}
    (h : findUser k l = some u) : u.username = k := by
  have := List.find?_some h
  simpa using this

theorem findUser_updateUser_self (f : User → User)
    (hf : ∀ v, (f v).username = v.username) (k : String) (l : Store) :
    findUser k (updateUser k f l) = (findUser k l).map f := by
  induction l with
  | nil => simp [findUser_nil, updateUser]
  | cons u rest ih =>
    rw [updateUser]
    cases h : u.username == k
    · rw [if_neg (by simp [h]), findUser_cons, findUser_cons, if_neg (by simp [h]),
        if_neg (by simp [h]), ih]
    · have hfk : ((f u).username == k) = true := by rw [hf u]; exact h
      rw [if_pos (by simp [h]), findUser_cons, findUser_cons, if_pos (by simp [hfk]),
        if_pos (by simp [h])]
      rfl

theorem findUser_updateUser_ne (f : User → User)
    (hf : ∀ v, (f v).username = v.username) {k m : String} (hkm : k ≠ m)
    (l : Store) : findUser k (updateUser m f l) = findUser k l := by
  induction l with
  | nil => simp [updateUser]
  | cons u rest ih =>
    rw [updateUser]
    cases h : u.username == m
    · rw [if_neg (by simp [h]), findUser_cons, findUser_cons]
      cases h2 : u.username == k
      · rw [if_neg (by simp [h2]), if_neg (by simp [h2]), ih]
      · rw [if_pos (by simp [h2]), if_pos (by simp [h2])]
    · have hm : u.username = m := by simpa using h
      have h1 : ((f u).username == k) = false := by
        rw [hf u, hm]; simpa using fun e => hkm e.symm
      have h2 : (u.username == k) = false := by
        rw [hm]; simpa using fun e => hkm e.symm
      rw [if_pos (by simp [h]), findUser_cons, findUser_cons, if_neg (by simp [h1]),
        if_neg (by simp [h2])]

theorem mem_updateUser (f : User → User) {k : String} {l : Store} {x : User}
    (hx : x ∈ updateUser k f l) :
    x ∈ l ∨ ∃ y, findUser k l = some y ∧ x = f y := by
  induction l with
  | nil => simp [updateUser] at hx
  | cons u rest ih =>
    rw [updateUser] at hx
    cases h : u.username == k
    · rw [if_neg (by simp [h])] at hx
      rcases List.mem_cons.mp hx with h1 | h1
      · left; simp [h1]
      · rcases ih h1 with h2 | ⟨y, hy, hxy⟩
        · left; exact List.mem_cons_of_mem _ h2
        · right; exact ⟨y, by rw [findUser_cons, if_neg (by simp [h])]; exact hy, hxy⟩
    · rw [if_pos (by simp [h])] at hx
      rcases List.mem_cons.mp hx with h1 | h1
      · right; exact ⟨u, by rw [findUser_cons, if_pos (by simp [h])], h1⟩
      · left; exact List.mem_cons_of_mem _ h1

theorem findUser_map (g : User → User)
    (hg : ∀ v, (g v).username = v.username) (k : String) (l : Store) :
    findUser k (l.map g) = (findUser k l).map g := by
  induction l with
  | nil => simp [findUser_nil]
  | cons u rest ih =>
    rw [List.map_cons, findUser_cons, findUser_cons]
    cases h : u.username == k
    · have hg2 : ((g u).username == k) = false := by rw [hg u]; exact h
      rw [if_neg (by simp [hg2]), if_neg (by simp [h]), ih]
    · have hg2 : ((g u).username == k) = true := by rw [hg u]; exact h
      rw [if_pos (by simp [hg2]), if_pos (by simp [h])]
      rfl

theorem updateUser_idem (f : User → User)
    (hf : ∀ v, (f v).username = v.username) (hff : ∀ v, f (f v) = f v)
    (k : String) (l : Store) :
    updateUser k f (updateUser k f l) = updateUser k f l := by
  induction l with
  | nil => rfl
  | cons u rest ih =>
    rw [updateUser]
    cases h : u.username == k
    · rw [if_neg (by simp [h]), updateUser, if_neg (by simp [h]), ih]
    · have h2 : ((f u).username == k) = true := by rw [hf u]; exact h
      rw [if_pos (by simp [h]), updateUser, if_pos (by simp [h2]), hff u]

theorem pruneOne_username (now ttl : Int) (v : User) :
    (pruneOne now ttl v).username = v.username := by
  rw [pruneOne]; split <;> rfl

theorem mem_get_users (now ttl : Int) (s : Store) (u : User) :
    u ∈ get_users now ttl s ↔
      u ∈ s ∧ u.is_online = true ∧ u.is_busy = false ∧ now - u.last_ping < ttl := by
  rw [get_users, List.mem_filter]
  constructor
  · rintro ⟨hm, hc⟩
    simp only [Bool.and_eq_true, Bool.not_eq_true', decide_eq_true_eq] at hc
    exact ⟨hm, hc.1.1, hc.2, by omega⟩
  · rintro ⟨hm, hon, hbusy, hfresh⟩
    refine ⟨hm, ?_⟩
    simp only [Bool.and_eq_true, Bool.not_eq_true', decide_eq_true_eq]
    exact ⟨⟨hon, by omega⟩, hbusy⟩

-- Claim theorems.

/-- C4: a row with `is_online = true` and `is_busy = true` never appears in the
result of `GET /users` (`get_users`), regardless of how recent its `last_ping`
is. -/
theorem busy_excluded_from_get_users (now ttl : Int) (s : Store) (u : User)
    (hmem : u ∈ s) (hon : u.is_online = true) (hbusy : u.is_busy = true) :
    u ∉ get_users now ttl s := by
  intro hin
  have h := (mem_get_users now ttl s u).mp hin
  rw [hbusy] at h
  exact Bool.true_eq_false.mp h.2.2.1

/-- Witness for `busy_excluded_from_get_users` at a concrete store. -/
theorem busy_excluded_from_get_users_witness :
    let u : User := { username := "a", hashed_password := "h", is_online := true,
                      last_ping := 50, is_busy := true }
    u ∈ [u] ∧ u.is_online = true ∧ u.is_busy = true ∧ u ∉ get_users 51 60 [u] :=
  ⟨List.mem_singleton.mpr rfl, rfl, rfl,
    busy_excluded_from_get_users 51 60 _ _ (List.mem_singleton.mpr rfl) rfl rfl⟩

/-- C2: one sweeper cycle (`prune_users`) sets `is_online := false` and
`is_busy := false` on every row that was online and whose heartbeat is older
than the TTL, and leaves every other row exactly unchanged. -/
theorem prune_users_evicts_exactly_stale (now ttl : Int) (s : Store)
    (k : String) (u : User) (h : findUser k s = some u) :
    (u.is_online = true → now - u.last_ping > ttl →
      findUser k (prune_users now ttl s) =
        some { u with is_online := false, is_busy := false }) ∧
    (¬(u.is_online = true ∧ now - u.last_ping > ttl) →
      findUser k (prune_users now ttl s) = some u) := by
  have hmap : findUser k (prune_users now ttl s) = some (pruneOne now ttl u) := by
    rw [prune_users, findUser_map (pruneOne now ttl) (pruneOne_username now ttl), h, Option.map]
  constructor
  · intro hon hstale
    rw [hmap, pruneOne, if_pos]
    simp only [Bool.and_eq_true, decide_eq_true_eq]
    exact ⟨hon, by omega⟩
  · intro hnot
    rw [hmap, pruneOne, if_neg]
    simp only [Bool.and_eq_true, decide_eq_true_eq, not_and]
    intro hon hlt
    exact absurd ⟨hon, by omega⟩ hnot

/-- Witness for `prune_users_evicts_exactly_stale`: a stale online row is
evicted. -/
theorem prune_users_evicts_exactly_stale_witness :
    findUser "a" (prune_users 100 60
        [{ username := "a", hashed_password := "h", is_online := true,
           last_ping := 0, is_busy := true }]) =
      some { username := "a", hashed_password := "h", is_online := false,
             last_ping := 0, is_busy := false } :=
  (prune_users_evicts_exactly_stale 100 60
    [{ username := "a", hashed_password := "h", is_online := true,
       last_ping := 0, is_busy := true }] "a"
    { username := "a", hashed_password := "h", is_online := true,
      last_ping := 0, is_busy := true } rfl).1 rfl (by decide)

/-- C7: `POST /status` (`update_status`) sets `is_busy` of the addressed row to
the given value, leaves its `is_online` and `last_ping` and every other row
unchanged, and fails with the 404 Not-Found error exactly when the username is
absent. -/
theorem update_status_frame (k : String) (b : Bool) (s : Store) :
    (findUser k s = none →
      update_status k b s = (Except.error ⟨404, "User not found"⟩, s)) ∧
    (∀ u, findUser k s = some u →
      (update_status k b s).1 = Except.ok () ∧
      findUser k (update_status k b s).2 = some { u with is_busy := b } ∧
      ∀ k2, k2 ≠ k → findUser k2 (update_status k b s).2 = findUser k2 s) := by
  constructor
  · intro h
    simp only [update_status, h]
  · intro u hu
    simp only [update_status, hu]
    refine ⟨trivial, ?_, ?_⟩
    · rw [findUser_updateUser_self (fun v => { v with is_busy := b }) (fun v => rfl) k s,
        hu, Option.map]
    · intro k2 hk2
      exact findUser_updateUser_ne (fun v => { v with is_busy := b }) (fun v => rfl) hk2 s

/-- Witness for `update_status_frame`: set a present online row busy; its
other fields survive; an absent username yields the 404 error. -/
theorem update_status_frame_witness :
    ((update_status "a" true
        [{ username := "a", hashed_password := "h", is_online := true,
           last_ping := 7, is_busy := false }]).1 = Except.ok () ∧
      findUser "a" (update_status "a" true
        [{ username := "a", hashed_password := "h", is_online := true,
           last_ping := 7, is_busy := false }]).2 =
        some { username := "a", hashed_password := "h", is_online := true,
               last_ping := 7, is_busy := true } ∧
      ∀ k2, k2 ≠ "a" →
        findUser k2 (update_status "a" true
          [{ username := "a", hashed_password := "h", is_online := true,
             last_ping := 7, is_busy := false }]).2 =
        findUser k2 [{ username := "a", hashed_password := "h", is_online := true,
                       last_ping := 7, is_busy := false }]) ∧
    update_status "b" true ([] : Store) =
      (Except.error ⟨404, "User not found"⟩, ([] : Store)) :=
  ⟨(update_status_frame "a" true
      [{ username := "a", hashed_password := "h", is_online := true,
         last_ping := 7, is_busy := false }]).2
      { username := "a", hashed_password := "h", is_online := true,
        last_ping := 7, is_busy := false } rfl,
    (update_status_frame "b" true ([] : Store)).1 rfl⟩

/-- C9: `POST /login` returns the same failure value — the 400
`"Invalid credentials"` `HTTPException` — for an unknown username as for a
known username with a non-verifying password; the two failures are
indistinguishable to the caller. -/
theorem login_failures_indistinguishable (vf1 vf2 : String → String → Bool)
    (k1 p1 k2 p2 : String) (t1 t2 : Int) (s1 s2 : Store) (u2 : User)
    (absent : findUser k1 s1 = none)
    (present : findUser k2 s2 = some u2)
    (bad : vf2 p2 u2.hashed_password = false) :
    (login vf1 k1 p1 t1 s1).1 = (login vf2 k2 p2 t2 s2).1 ∧
    (login vf1 k1 p1 t1 s1).1 = Except.error ⟨400, "Invalid credentials"⟩ := by
  simp only [login, absent, present, bad, Bool.false_eq_true, if_false]
  exact ⟨trivial, trivial⟩

/-- Witness for `login_failures_indistinguishable`: unknown `"x"` versus
known `"a"` with a wrong password, under equality-of-strings verification. -/
theorem login_failures_indistinguishable_witness :
    (login (fun p h => p == h) "x" "q" 1 ([] : Store)).1 =
      (login (fun p h => p == h) "a" "wrong" 2
        [{ username := "a", hashed_password := "secret", is_online := false,
           last_ping := 0, is_busy := false }]).1 :=
  (login_failures_indistinguishable (fun p h => p == h) (fun p h => p == h)
    "x" "q" "a" "wrong" 1 2 ([] : Store)
    [{ username := "a", hashed_password := "secret", is_online := false,
       last_ping := 0, is_busy := false }]
    { username := "a", hashed_password := "secret", is_online := false,
      last_ping := 0, is_busy := false } rfl rfl (by decide)).1

/-- C10: every failing endpoint call leaves the table unchanged: when
`register` rejects a duplicate, `login` rejects credentials, or `ping` or
`update_status` miss the username, the resulting state equals the input
state. -/
theorem failing_calls_leave_store_unchanged (hfn : String → String)
    (vf : String → String → Bool) (k p : String) (t : Int) (b : Bool)
    (s : Store) (e : HTTPException) :
    ((register hfn k p t s).1 = Except.error e → (register hfn k p t s).2 = s) ∧
    ((login vf k p t s).1 = Except.error e → (login vf k p t s).2 = s) ∧
    ((ping k t s).1 = Except.error e → (ping k t s).2 = s) ∧
    ((update_status k b s).1 = Except.error e → (update_status k b s).2 = s) := by
  refine ⟨?_, ?_, ?_, ?_⟩
  · intro h
    cases hf2 : findUser k s
    · simp only [register, hf2] at h
      exact Except.noConfusion h
    · simp only [register, hf2]
  · intro h
    cases hf2 : findUser k s with
    | none => simp only [login, hf2]
    | some u =>
      cases hv : vf p u.hashed_password
      · simp only [login, hf2, hv, Bool.false_eq_true, if_false]
      · simp only [login, hf2, hv, if_true] at h
        exact Except.noConfusion h
  · intro h
    cases hf2 : findUser k s
    · simp only [ping, hf2]
    · simp only [ping, hf2] at h
      exact Except.noConfusion h
  · intro h
    cases hf2 : findUser k s
    · simp only [update_status, hf2]
    · simp only [update_status, hf2] at h
      exact Except.noConfusion h

/-- Witness for `failing_calls_leave_store_unchanged`: a duplicate `register`
on a one-row table returns the table untouched. -/
theorem failing_calls_leave_store_unchanged_witness :
    (register (fun x => x) "a" "p" 3
      [{ username := "a", hashed_password := "h", is_online := false,
         last_ping := 0, is_busy := false }]).2 =
    [{ username := "a", hashed_password := "h", is_online := false,
       last_ping := 0, is_busy := false }] :=
  (failing_calls_leave_store_unchanged (fun x => x) (fun p h => p == h)
    "a" "p" 3 true
    [{ username := "a", hashed_password := "h", is_online := false,
       last_ping := 0, is_busy := false }]
    ⟨400, "Username already registered"⟩).1 rfl

/-- C5: from a table without username `k`, the first `register` succeeds and
appends the new row, the second fails with the duplicate 400 error; in
general `register` fails with that error exactly when a row with username `k`
already exists. -/
theorem register_duplicate_rejection (hf : String → String) (k p1 p2 : String)
    (t1 t2 : Int) (s : Store) (habs : findUser k s = none) :
    register hf k p1 t1 s = (Except.ok (), s ++ [newUser k (hf p1) t1]) ∧
    register hf k p2 t2 (s ++ [newUser k (hf p1) t1]) =
      (Except.error ⟨400, "Username already registered"⟩,
        s ++ [newUser k (hf p1) t1]) ∧
    (∀ (s2 : Store) (q : String) (t3 : Int),
      (register hf k q t3 s2).1 =
          Except.error ⟨400, "Username already registered"⟩ ↔
        ∃ u, findUser k s2 = some u) := by
  have hfound : findUser k (s ++ [newUser k (hf p1) t1]) =
      some (newUser k (hf p1) t1) := by
    simp only [findUser_append, habs]
    rw [findUser_cons, if_pos (by simp [newUser])]
  refine ⟨?_, ?_, ?_⟩
  · simp only [register, habs]
  · simp only [register, hfound]
  · intro s2 q t3
    constructor
    · intro he
      cases hf2 : findUser k s2 with
      | none =>
        simp only [register, hf2] at he
        exact Except.noConfusion he
      | some u => exact ⟨u, rfl⟩
    · rintro ⟨u, hu⟩
      simp only [register, hu]

/-- Witness for `register_duplicate_rejection`: registering `"a"` twice on the
empty table. -/
theorem register_duplicate_rejection_witness :
    register (fun x => x) "a" "p" 0 ([] : Store) =
      (Except.ok (), [newUser "a" "p" 0]) ∧
    register (fun x => x) "a" "q" 1 [newUser "a" "p" 0] =
      (Except.error ⟨400, "Username already registered"⟩, [newUser "a" "p" 0]) :=
  ⟨(register_duplicate_rejection (fun x => x) "a" "p" "q" 0 1 [] rfl).1,
    (register_duplicate_rejection (fun x => x) "a" "p" "q" 0 1 [] rfl).2.1⟩

/-- C8: `POST /ping` is idempotent and frame-preserving: when `ping k t`
succeeds and yields table `s2`, running the same `ping k t` again on `s2`
succeeds and yields `s2` unchanged; `s2` records the row for `k` as online
with heartbeat `t`, with its `is_busy` flag, `username` and
`hashed_password` exactly as before the ping; and every other key's record
is unchanged from the pre-ping table. -/
theorem ping_idempotent (k : String) (t : Int) (s s2 : Store)
    (h : ping k t s = (Except.ok (), s2)) :
    ping k t s2 = (Except.ok (), s2) ∧
    (∃ u0 u, findUser k s = some u0 ∧ findUser k s2 = some u ∧
      u.is_online = true ∧ u.last_ping = t ∧ u.is_busy = u0.is_busy ∧
      u.username = u0.username ∧ u.hashed_password = u0.hashed_password) ∧
    (∀ k2, k2 ≠ k → findUser k2 s2 = findUser k2 s) := by
  cases hfind : findUser k s with
  | none =>
    simp only [ping, hfind] at h
    exact Except.noConfusion (congrArg Prod.fst h)
  | some u0 =>
    simp only [ping, hfind] at h
    have hs2 : s2 = updateUser k
        (fun v => { v with last_ping := t, is_online := true }) s :=
      (congrArg Prod.snd h).symm
    subst hs2
    have hup : findUser k (updateUser k
          (fun v => { v with last_ping := t, is_online := true }) s) =
        some { u0 with last_ping := t, is_online := true } := by
      rw [findUser_updateUser_self
        (fun v => { v with last_ping := t, is_online := true }) (fun v => rfl) k s,
        hfind, Option.map]
    refine ⟨?_, ⟨u0, _, rfl, hup, rfl, rfl, rfl, rfl, rfl⟩, ?_⟩
    · simp only [ping, hup]
      rw [updateUser_idem (fun v => { v with last_ping := t, is_online := true })
        (fun v => rfl) (fun v => rfl) k s]
    · intro k2 hk2
      exact findUser_updateUser_ne
        (fun v => { v with last_ping := t, is_online := true }) (fun v => rfl) hk2 s

/-- Witness for `ping_idempotent`: on a two-row table, pinging `"a"` once and
then again is a fixed point, while the busy flag of `"a"` and the row of
`"b"` survive untouched. -/
theorem ping_idempotent_witness :
    ping "a" 5 [{ username := "a", hashed_password := "h", is_online := true,
                  last_ping := 5, is_busy := true },
                { username := "b", hashed_password := "g", is_online := true,
                  last_ping := 2, is_busy := false }] =
      (Except.ok (), [{ username := "a", hashed_password := "h",
                        is_online := true, last_ping := 5, is_busy := true },
                      { username := "b", hashed_password := "g",
                        is_online := true, last_ping := 2,
                        is_busy := false }]) ∧
    findUser "b" [({ username := "a", hashed_password := "h", is_online := true,
                     last_ping := 5, is_busy := true } : User),
                  { username := "b", hashed_password := "g", is_online := true,
                    last_ping := 2, is_busy := false }] =
      findUser "b" [({ username := "a", hashed_password := "h",
                       is_online := false, last_ping := 0,
                       is_busy := true } : User),
                    { username := "b", hashed_password := "g",
                      is_online := true, last_ping := 2, is_busy := false }] :=
  have h := ping_idempotent "a" 5
    [{ username := "a", hashed_password := "h", is_online := false,
       last_ping := 0, is_busy := true },
     { username := "b", hashed_password := "g", is_online := true,
       last_ping := 2, is_busy := false }]
    [{ username := "a", hashed_password := "h", is_online := true,
       last_ping := 5, is_busy := true },
     { username := "b", hashed_password := "g", is_online := true,
       last_ping := 2, is_busy := false }] rfl
  ⟨h.1, h.2.2 "b" (by decide)⟩

/-- C3 as stated is false at the TTL boundary: after `ping("a")` succeeds at
`t = 0`, the row is online and not busy, and the query time `t2 = 60` satisfies
`t2 ≤ t + ttl` (and `t2 - last_ping ≤ ttl`) for `ttl = 60`, yet `GET /users`
returns the empty list, because `get_users` keeps only rows with
`last_ping > now - ttl`, a strict inequality. -/
theorem get_users_boundary_counterexample :
    (ping "a" 0 [{ username := "a", hashed_password := "h", is_online := false,
                   last_ping := -5, is_busy := false }]).1 = Except.ok () ∧
    findUser "a" (ping "a" 0 [{ username := "a", hashed_password := "h",
                                is_online := false, last_ping := -5,
                                is_busy := false }]).2 =
      some { username := "a", hashed_password := "h", is_online := true,
             last_ping := 0, is_busy := false } ∧
    ((60 : Int) ≤ 0 + 60 ∧ (60 : Int) - 0 ≤ 60) ∧
    get_users 60 60 (ping "a" 0 [{ username := "a", hashed_password := "h",
                                   is_online := false, last_ping := -5,
                                   is_busy := false }]).2 = [] :=
  ⟨rfl, rfl, by decide, rfl⟩

/-- C3 (amended): `get_users now ttl` returns exactly the rows with
`is_online = true`, `is_busy = false` and `now - last_ping < ttl` (strictly
less, not `≤`); consequently, after `ping(k, t)` succeeds, a `GET /users`
evaluated at any time `t2 < t + ttl` (strictly before the boundary) lists the
row for `k` while it is not busy. -/
theorem ping_then_listed_strict :
    (∀ (now ttl : Int) (s : Store) (u : User),
        u ∈ get_users now ttl s ↔
          u ∈ s ∧ u.is_online = true ∧ u.is_busy = false ∧
            now - u.last_ping < ttl) ∧
    (∀ (k : String) (t t2 ttl : Int) (s : Store) (u : User),
        (ping k t s).1 = Except.ok () → t2 < t + ttl →
        findUser k (ping k t s).2 = some u → u.is_busy = false →
        u ∈ get_users t2 ttl (ping k t s).2) := by
  refine ⟨fun now ttl s u => mem_get_users now ttl s u, ?_⟩
  intro k t t2 ttl s u hok ht2 hu hbusy
  cases hfind : findUser k s with
  | none =>
    simp only [ping, hfind] at hok
    exact Except.noConfusion hok
  | some u0 =>
    have hval : findUser k (ping k t s).2 =
        some { u0 with last_ping := t, is_online := true } := by
      simp only [ping, hfind]
      rw [findUser_updateUser_self
        (fun v => { v with last_ping := t, is_online := true }) (fun v => rfl) k s,
        hfind, Option.map]
    have hueq : u = { u0 with last_ping := t, is_online := true } :=
      (Option.some.inj (hval.symm.trans hu)).symm
    refine (mem_get_users t2 ttl _ u).mpr ⟨mem_of_findUser hu, ?_, hbusy, ?_⟩
    · rw [hueq]
    · rw [hueq]
      show t2 - t < ttl
      omega

/-- Witness for `ping_then_listed_strict`: a ping at `t = 0` is listed by a
query at `t2 = 59 < 60`. -/
theorem ping_then_listed_strict_witness :
    ({ username := "a", hashed_password := "h", is_online := true,
       last_ping := 0, is_busy := false } : User) ∈
      get_users 59 60 (ping "a" 0 [newUser "a" "h" (-5)]).2 :=
  ping_then_listed_strict.2 "a" 0 59 60 [newUser "a" "h" (-5)]
    { username := "a", hashed_password := "h", is_online := true,
      last_ping := 0, is_busy := false } rfl (by decide) rfl rfl

theorem findUser_updateUser_online (f : User → User)
    (hf : ∀ v, (f v).username = v.username)
    (hon2 : ∀ v, v.is_online = true → (f v).is_online = true)
    {s : Store} {k : String} {u : User} (m : String)
    (hu : findUser k s = some u) (hon : u.is_online = true) :
    ∃ v, findUser k (updateUser m f s) = some v ∧ v.is_online = true := by
  by_cases hkm : k = m
  · subst hkm
    refine ⟨f u, ?_, hon2 u hon⟩
    rw [findUser_updateUser_self f hf k s, hu, Option.map]
  · refine ⟨u, ?_, hon⟩
    rw [findUser_updateUser_ne f hf hkm s]
    exact hu

/-- C6: no client-facing endpoint ever turns `is_online` from true to false:
after any `register`, `login`, `ping`, or `update_status` call — succeeding or
failing, addressed to any username — a row that was online is still online.
Only the sweeper (`prune_users`) clears the flag. -/
theorem clients_never_clear_online (s : Store) (k : String) (u : User)
    (hu : findUser k s = some u) (hon : u.is_online = true) :
    (∀ (hfn : String → String) (m q : String) (t : Int),
        ∃ v, findUser k (register hfn m q t s).2 = some v ∧ v.is_online = true) ∧
    (∀ (vf : String → String → Bool) (m q : String) (t : Int),
        ∃ v, findUser k (login vf m q t s).2 = some v ∧ v.is_online = true) ∧
    (∀ (m : String) (t : Int),
        ∃ v, findUser k (ping m t s).2 = some v ∧ v.is_online = true) ∧
    (∀ (m : String) (b : Bool),
        ∃ v, findUser k (update_status m b s).2 = some v ∧ v.is_online = true) := by
  refine ⟨?_, ?_, ?_, ?_⟩
  · intro hfn m q t
    cases hfind : findUser m s with
    | some w =>
      simp only [register, hfind]
      exact ⟨u, hu, hon⟩
    | none =>
      simp only [register, hfind]
      refine ⟨u, ?_, hon⟩
      simp only [findUser_append, hu]
  · intro vf m q t
    cases hfind : findUser m s with
    | none =>
      simp only [login, hfind]
      exact ⟨u, hu, hon⟩
    | some w =>
      cases hv : vf q w.hashed_password
      · simp only [login, hfind, hv, Bool.false_eq_true, if_false]
        exact ⟨u, hu, hon⟩
      · simp only [login, hfind, hv, if_true]
        exact findUser_updateUser_online
          (fun v => { v with is_online := true, last_ping := t })
          (fun v => rfl) (fun v hv2 => rfl) m hu hon
  · intro m t
    cases hfind : findUser m s with
    | none =>
      simp only [ping, hfind]
      exact ⟨u, hu, hon⟩
    | some w =>
      simp only [ping, hfind]
      exact findUser_updateUser_online
        (fun v => { v with last_ping := t, is_online := true })
        (fun v => rfl) (fun v hv2 => rfl) m hu hon
  · intro m b
    cases hfind : findUser m s with
    | none =>
      simp only [update_status, hfind]
      exact ⟨u, hu, hon⟩
    | some w =>
      simp only [update_status, hfind]
      exact findUser_updateUser_online (fun v => { v with is_busy := b })
        (fun v => rfl) (fun v hv2 => hv2) m hu hon

/-- Witness for `clients_never_clear_online`: `update_status` to busy leaves
an online row online. -/
theorem clients_never_clear_online_witness :
    ∃ v, findUser "a" (update_status "a" true
      [{ username := "a", hashed_password := "h", is_online := true,
         last_ping := 3, is_busy := false }]).2 = some v ∧ v.is_online = true :=
  (clients_never_clear_online
    [{ username := "a", hashed_password := "h", is_online := true,
       last_ping := 3, is_busy := false }] "a"
    { username := "a", hashed_password := "h", is_online := true,
      last_ping := 3, is_busy := false } rfl rfl).2.2.2 "a" true

/-- C1 fails as stated: the store reached from empty by `register("a")`
followed by `update_status("a", is_busy=True)` — both ordinary endpoint
calls — contains a row with `is_online = false` and `is_busy = true`, because
`update_status` sets `is_busy` without checking `is_online`. -/
theorem offline_busy_state_reachable :
    Reachable [{ username := "a", hashed_password := "p", is_online := false,
                 last_ping := 0, is_busy := true }] ∧
    ¬ OfflineNotBusy [{ username := "a", hashed_password := "p",
                        is_online := false, last_ping := 0,
                        is_busy := true }] := by
  constructor
  · have h2 := Reachable.sts "a" true
      (Reachable.reg (fun x => x) "a" "p" 0 Reachable.empty)
    have e2 : (update_status "a" true
        (register (fun x => x) "a" "p" 0 ([] : Store)).2).2 =
        [{ username := "a", hashed_password := "p", is_online := false,
           last_ping := 0, is_busy := true }] := rfl
    rw [e2] at h2
    exact h2
  · intro hinv
    have hcontra := hinv
      { username := "a", hashed_password := "p", is_online := false,
        last_ping := 0, is_busy := true } (List.mem_singleton.mpr rfl) rfl
    exact Bool.noConfusion hcontra

/-- C1 (amended): restrict the reachable states to those where a
`POST /status` call setting `is_busy = true` is only issued for a currently
online row (`ReachableGuarded`); then every record with `is_online = false`
also has `is_busy = false` in every reachable state. -/
theorem guarded_offline_not_busy (s : Store) (h : ReachableGuarded s) :
    OfflineNotBusy s := by
  induction h with
  | empty =>
    intro x hx
    cases hx
  | reg hfn m p t hs ih =>
    intro x hx hxoff
    rename_i s0
    cases hfind : findUser m s0 with
    | some w =>
      simp only [register, hfind] at hx
      exact ih x hx hxoff
    | none =>
      simp only [register, hfind] at hx
      rcases List.mem_append.mp hx with h1 | h1
      · exact ih x h1 hxoff
      · rw [List.mem_singleton.mp h1]
        rfl
  | log vf m p t hs ih =>
    intro x hx hxoff
    rename_i s0
    cases hfind : findUser m s0 with
    | none =>
      simp only [login, hfind] at hx
      exact ih x hx hxoff
    | some w =>
      cases hv : vf p w.hashed_password
      · simp only [login, hfind, hv, Bool.false_eq_true, if_false] at hx
        exact ih x hx hxoff
      · simp only [login, hfind, hv, if_true] at hx
        rcases mem_updateUser _ hx with h1 | ⟨y, hy, hxy⟩
        · exact ih x h1 hxoff
        · rw [hxy] at hxoff
          exact Bool.noConfusion hxoff
  | png m t hs ih =>
    intro x hx hxoff
    rename_i s0
    cases hfind : findUser m s0 with
    | none =>
      simp only [ping, hfind] at hx
      exact ih x hx hxoff
    | some w =>
      simp only [ping, hfind] at hx
      rcases mem_updateUser _ hx with h1 | ⟨y, hy, hxy⟩
      · exact ih x h1 hxoff
      · rw [hxy] at hxoff
        exact Bool.noConfusion hxoff
  | sts m b hs hg ih =>
    intro x hx hxoff
    rename_i s0
    cases hfind : findUser m s0 with
    | none =>
      simp only [update_status, hfind] at hx
      exact ih x hx hxoff
    | some w =>
      simp only [update_status, hfind] at hx
      rcases mem_updateUser _ hx with h1 | ⟨y, hy, hxy⟩
      · exact ih x h1 hxoff
      · cases b with
        | false =>
          rw [hxy]
        | true =>
          have hyon : y.is_online = true := hg rfl y hy
          rw [hxy] at hxoff
          have hyoff : y.is_online = false := hxoff
          exact Bool.noConfusion (hyon.symm.trans hyoff)
  | swp now ttl hs ih =>
    intro x hx hxoff
    rcases List.mem_map.mp hx with ⟨y, hy, hxy⟩
    subst hxy
    rw [pruneOne] at hxoff ⊢
    by_cases hc : (y.is_online && decide (y.last_ping < now - ttl)) = true
    · rw [if_pos hc] at hxoff ⊢
    · rw [if_neg hc] at hxoff ⊢
      exact ih y hy hxoff

/-- Witness for `guarded_offline_not_busy` on the one-row store reached by a
single `register`. -/
theorem guarded_offline_not_busy_witness :
    ReachableGuarded [newUser "a" "p" 0] ∧
    OfflineNotBusy [newUser "a" "p" 0] := by
  have h1 : ReachableGuarded [newUser "a" "p" 0] := by
    have h0 := ReachableGuarded.reg (fun x => x) "a" "p" 0 ReachableGuarded.empty
    have e : (register (fun x => x) "a" "p" 0 ([] : Store)).2 =
        [newUser "a" "p" 0] := rfl
    rw [e] at h0
    exact h0
  exact ⟨h1, guarded_offline_not_busy _ h1⟩
